import Mathlib

/-!
Verification of the Verlihub hook dispatcher
(`src/plugins/python/scripts/dispatcher.py`).

The dispatcher keeps three pieces of module-level state:
  * `_scripts`  : dict  script_id -> {name, hooks, cleanup, priority, enabled}
  * `_hooks`    : defaultdict  hook_name -> [(script_id, priority, handler), ...]
  * `_stats`    : {total_scripts, active_scripts, total_calls, failed_calls,
                   disabled_scripts}

We embed this state as `DState`.  Python dicts (3.7+) preserve insertion
order, read the first (unique) matching key and update keys in place, so
they are modelled as association lists with `alistGet` / `alistSet`.
Handler and cleanup callables are opaque to the dispatcher; we name them
by `Nat` tags and supply their behaviour for one dispatch through an
environment `beh : Nat → HRes`.
-/

/-- A Python value as far as the dispatcher inspects it.  The dispatcher
only ever applies `isinstance(ret, int)` and `ret == 0` to a handler's
return value, so we keep just enough structure to decide those two tests
(`bool` is a subclass of `int` in Python; `False == 0` and `0.0 == 0`
are true; `"0" == 0` and `None == 0` are false). -/
inductive PyVal where
  | vint (n : Int)
  | vbool (b : Bool)
  | vfloat (n : Int)
  | vstr (s : String)
  | vnone
  deriving DecidableEq, Repr

/-- Outcome of calling one handler: it returns a value or raises. -/
inductive HRes where
  | ret (v : PyVal)
  | raise
  deriving DecidableEq, Repr

/-- One entry of a `_hooks[hook_name]` list: `(script_id, priority, handler)`. -/
structure Binding where
  sid : Nat
  pri : Int
  handler : Nat
  deriving DecidableEq, Repr

/-- One `_scripts[script_id]` record (the `registered_at` field is always
`None` in the source and is omitted). -/
structure Script where
  name : String
  hooks : List (String × Nat)
  cleanup : Option Nat
  priority : Int
  enabled : Bool
  deriving DecidableEq, Repr

/-- The dispatcher's module-level mutable state. -/
structure DState where
  scripts : List (Nat × Script)
  next_script_id : Nat
  hooks : List (String × List Binding)
  total_scripts : Nat
  active_scripts : Int
  total_calls : List (String × Nat)
  failed_calls : List (String × Nat)
  disabled_scripts : List Nat
  deriving DecidableEq, Repr

/-- State at module load: empty registries, `_next_script_id = 1`. -/
def initState : DState :=
  { scripts := []
    next_script_id := 1
    hooks := []
    total_scripts := 0
    active_scripts := 0
    total_calls := []
    failed_calls := []
    disabled_scripts := [] }

/-- Dict lookup: first entry with the given key. -/
def alistGet {κ α : Type} [DecidableEq κ] : List (κ × α) → κ → Option α
  | [], _ => none
  | p :: rest, k => if p.1 = k then some p.2 else alistGet rest k

/-- Dict store: replace the entry in place if the key is present,
append at the end otherwise (Python dict insertion order). -/
def alistSet {κ α : Type} [DecidableEq κ] : List (κ × α) → κ → α → List (κ × α)
  | [], k, v => [(k, v)]
  | p :: rest, k, v => if p.1 = k then (k, v) :: rest else p :: alistSet rest k v

/-- `defaultdict(int)` increment: `d[k] += 1`. -/
def bumpCount (l : List (String × Nat)) (k : String) : List (String × Nat) :=
  alistSet l k ((alistGet l k).getD 0 + 1)

/-- Iterated `bumpCount` (used to describe several failures in one dispatch). -/
def bumpCountN (l : List (String × Nat)) (k : String) : Nat → List (String × Nat)
  | 0 => l
  | n + 1 => bumpCountN (bumpCount l k) k n

/-- Insert `x` after every element `y` with `le y x`: one step of a
stable insertion sort. -/
def insertLe {α : Type} (le : α → α → Bool) (x : α) : List α → List α
  | [] => [x]
  | y :: ys => if le y x then y :: insertLe le x ys else x :: y :: ys

/-- Stable ascending sort (processing left to right, inserting each
element after its equals).  Python's `list.sort` is stable, so any stable
sort by the same key computes the same list. -/
def stableSortBy {α : Type} (le : α → α → Bool) (l : List α) : List α :=
  l.foldl (fun acc x => insertLe le x acc) []

/-- The sort key of `_hooks[hook_name].sort(key=lambda x: x[1])`. -/
def priLe (a b : Binding) : Bool := decide (a.pri ≤ b.pri)

/-- `_hooks[k].append(b)` followed by `_hooks[k].sort(key=lambda x: x[1])`
(the `defaultdict` creates an empty list for a missing key). -/
def hookAppendSort (hs : List (String × List Binding)) (k : String) (b : Binding) :
    List (String × List Binding) :=
  alistSet hs k (stableSortBy priLe ((alistGet hs k).getD [] ++ [b]))

/-- The `for hook_name, handler in hooks.items()` loop of `register_script`. -/
def registerHooks (sid : Nat) (pri : Int) :
    List (String × Nat) → List (String × List Binding) → List (String × List Binding)
  | [], hs => hs
  | (k, h) :: rest, hs => registerHooks sid pri rest (hookAppendSort hs k ⟨sid, pri, h⟩)

/-- `register_script(script_name, hooks, cleanup=None, priority=100,
auto_enable=True)`: allocate the next id, store the Script record, append
and re-sort one binding per hook-map entry, bump `total_scripts` and
(when auto-enabled) `active_scripts`.  Returns `(script_id, new state)`. -/
def register_script (s : DState) (script_name : String) (hooks : List (String × Nat))
    (cleanup : Option Nat) (priority : Int) (auto_enable : Bool) : Nat × DState :=
  let sid := s.next_script_id
  (sid,
    { s with
      next_script_id := sid + 1
      scripts := alistSet s.scripts sid
        { name := script_name, hooks := hooks, cleanup := cleanup,
          priority := priority, enabled := auto_enable }
      hooks := registerHooks sid priority hooks s.hooks
      total_scripts := s.total_scripts + 1
      active_scripts := if auto_enable then s.active_scripts + 1 else s.active_scripts })

/-- Strip a script's bindings from every hook list and delete hook keys
whose list became empty (the cleanup loop of `unregister_script`). -/
def removeHooksOf (sid : Nat) (hs : List (String × List Binding)) :
    List (String × List Binding) :=
  (hs.map (fun p => (p.1, p.2.filter (fun b => b.sid != sid)))).filter
    (fun p => !p.2.isEmpty)

/-- `unregister_script(script_id)`.  `cbeh c = true` means the cleanup
callable `c` raises when invoked; the source wraps the call in
`try/except` that only logs, so both arms fall through to the removal
code and the resulting state does not depend on `cbeh`.  Returns
`(result, list of cleanup callables invoked, new state)`.  Note the
statistics update runs unconditionally: `active_scripts -= 1` and
`disabled_scripts.discard(script_id)`. -/
def unregister_script (s : DState) (cbeh : Nat → Bool) (sid : Nat) :
    Bool × List Nat × DState :=
  match alistGet s.scripts sid with
  | none => (false, [], s)
  | some sc =>
    let cleanupCalls :=
      match sc.cleanup with
      | some c => if cbeh c then [c] else [c]
      | none => []
    (true, cleanupCalls,
      { s with
        scripts := s.scripts.filter (fun p => p.1 != sid)
        hooks := removeHooksOf sid s.hooks
        active_scripts := s.active_scripts - 1
        disabled_scripts := s.disabled_scripts.filter (fun x => x != sid) })

/-- `enable_script(script_id)`: set the enabled flag, discard from the
`disabled_scripts` set, and increment `active_scripts` (unconditionally —
the source never checks whether the script was already enabled). -/
def enable_script (s : DState) (sid : Nat) : Bool × DState :=
  match alistGet s.scripts sid with
  | none => (false, s)
  | some sc =>
    (true,
      { s with
        scripts := alistSet s.scripts sid { sc with enabled := true }
        disabled_scripts := s.disabled_scripts.filter (fun x => x != sid)
        active_scripts := s.active_scripts + 1 })

/-- `disable_script(script_id)`: clear the enabled flag, add to the
`disabled_scripts` set (`set.add` is a no-op when present), and decrement
`active_scripts` (again unconditionally). -/
def disable_script (s : DState) (sid : Nat) : Bool × DState :=
  match alistGet s.scripts sid with
  | none => (false, s)
  | some sc =>
    (true,
      { s with
        scripts := alistSet s.scripts sid { sc with enabled := false }
        disabled_scripts :=
          if s.disabled_scripts.contains sid then s.disabled_scripts
          else s.disabled_scripts ++ [sid]
        active_scripts := s.active_scripts - 1 })

/-- `list_scripts()` — snapshot of the script registry. -/
def list_scripts (s : DState) : List (Nat × Script) := s.scripts

/-- The dictionary returned by `get_stats()`. -/
structure StatsView where
  total_scripts : Nat
  active_scripts : Int
  disabled_scripts : Nat
  total_calls : List (String × Nat)
  failed_calls : List (String × Nat)
  hooksCounts : List (String × Nat)
  deriving DecidableEq, Repr

/-- `get_stats()`: the reported `disabled_scripts` figure is the size of
the `disabled_scripts` set, not a recount of the registry. -/
def get_stats (s : DState) : StatsView :=
  { total_scripts := s.total_scripts
    active_scripts := s.active_scripts
    disabled_scripts := s.disabled_scripts.length
    total_calls := s.total_calls
    failed_calls := s.failed_calls
    hooksCounts := s.hooks.map (fun p => (p.1, p.2.length)) }

/-- `isinstance(ret, int)` — in Python `bool` is a subclass of `int`. -/
def pyIsInstInt : PyVal → Bool
  | .vint _ => true
  | .vbool _ => true
  | _ => false

/-- `ret == 0` under Python equality (`False == 0` and `0.0 == 0` hold;
`"0" == 0` and `None == 0` do not). -/
def pyEqZero : PyVal → Bool
  | .vint n => decide (n = 0)
  | .vbool b => !b
  | .vfloat n => decide (n = 0)
  | .vstr _ => false
  | .vnone => false

/-- The short-circuit test of `_dispatch_hook`:
`isinstance(ret, int) and ret == 0`. -/
def blockCond (v : PyVal) : Bool := pyIsInstInt v && pyEqZero v

/-- Whether one handler outcome stops the chain. -/
def isBlockRes : HRes → Bool
  | .ret v => blockCond v
  | .raise => false

/-- Whether one handler outcome raised. -/
def isRaise : HRes → Bool
  | .ret _ => false
  | .raise => true

/-- The per-binding re-check `_dispatch_hook` performs against the live
registry: the owning script must still exist and be enabled. -/
def enabledIn (s : DState) (b : Binding) : Bool :=
  match alistGet s.scripts b.sid with
  | none => false
  | some sc => sc.enabled

/-- The `for script_id, priority, handler in handlers:` loop of
`_dispatch_hook`: skip bindings whose owner is gone or disabled, stop
with result 0 on the first handler whose return satisfies
`isinstance(ret, int) and ret == 0`, count a failure and continue when a
handler raises.  Returns `(result, bindings invoked in order, state)`. -/
def dispatchLoop (beh : Nat → HRes) (hook_name : String) :
    List Binding → DState → Int × List Binding × DState
  | [], s => (1, [], s)
  | b :: rest, s =>
    match alistGet s.scripts b.sid with
    | none => dispatchLoop beh hook_name rest s
    | some sc =>
      if sc.enabled then
        match beh b.handler with
        | .ret v =>
          if blockCond v then (0, [b], s)
          else
            let r := dispatchLoop beh hook_name rest s
            (r.1, b :: r.2.1, r.2.2)
        | .raise =>
          let r := dispatchLoop beh hook_name rest
            { s with failed_calls := bumpCount s.failed_calls hook_name }
          (r.1, b :: r.2.1, r.2.2)
      else dispatchLoop beh hook_name rest s

/-- `_dispatch_hook(hook_name, *args)`: bump the attempted counter, take
a snapshot of the hook list, return 1 when it is empty, otherwise run the
chain.  The handler arguments are folded into `beh` (each handler is
called at most once per dispatch). -/
def _dispatch_hook (s : DState) (beh : Nat → HRes) (hook_name : String) :
    Int × List Binding × DState :=
  let s1 : DState := { s with total_calls := bumpCount s.total_calls hook_name }
  let handlers := (alistGet s1.hooks hook_name).getD []
  if handlers.isEmpty then (1, [], s1)
  else dispatchLoop beh hook_name handlers s1

/-! ### Per-event-kind dispatch entry points

The source defines one module-level function per supported hook, each
forwarding its arguments unchanged into `_dispatch_hook` under the fixed
hook name.  The argument tuples are folded into `beh`, so each entry
point is the dispatch under its name.  `OnHubCommand` is defined twice in
the source; the second (admin) definition wins and is modelled below. -/

/-- The fixed event-kind set dispatched by the module-level entry points. -/
def supportedHookNames : List String :=
  ["OnTimer", "OnParsedMsgChat", "OnParsedMsgPM", "OnParsedMsgSearch",
   "OnParsedMsgSR", "OnParsedMsgMyINFO", "OnParsedMsgValidateNick",
   "OnParsedMsgConnectToMe", "OnParsedMsgRevConnectToMe", "OnParsedMsgSupports",
   "OnUserLogin", "OnUserLogout", "OnUserDisconnected", "OnNewConn",
   "OnCloseConn", "OnHubCommand", "OnOperatorCommand", "OnOperatorKicks",
   "OnOperatorDrops", "OnValidateTag", "OnUserInList", "OnUnknownMsg", "OnFlood"]

def OnTimer (s : DState) (beh : Nat → HRes) : Int × List Binding × DState :=
  _dispatch_hook s beh "OnTimer"

def OnParsedMsgChat (s : DState) (beh : Nat → HRes) : Int × List Binding × DState :=
  _dispatch_hook s beh "OnParsedMsgChat"

def OnParsedMsgPM (s : DState) (beh : Nat → HRes) : Int × List Binding × DState :=
  _dispatch_hook s beh "OnParsedMsgPM"

def OnParsedMsgSearch (s : DState) (beh : Nat → HRes) : Int × List Binding × DState :=
  _dispatch_hook s beh "OnParsedMsgSearch"

def OnParsedMsgSR (s : DState) (beh : Nat → HRes) : Int × List Binding × DState :=
  _dispatch_hook s beh "OnParsedMsgSR"

def OnParsedMsgMyINFO (s : DState) (beh : Nat → HRes) : Int × List Binding × DState :=
  _dispatch_hook s beh "OnParsedMsgMyINFO"

def OnParsedMsgValidateNick (s : DState) (beh : Nat → HRes) : Int × List Binding × DState :=
  _dispatch_hook s beh "OnParsedMsgValidateNick"

def OnParsedMsgConnectToMe (s : DState) (beh : Nat → HRes) : Int × List Binding × DState :=
  _dispatch_hook s beh "OnParsedMsgConnectToMe"

def OnParsedMsgRevConnectToMe (s : DState) (beh : Nat → HRes) : Int × List Binding × DState :=
  _dispatch_hook s beh "OnParsedMsgRevConnectToMe"

def OnParsedMsgSupports (s : DState) (beh : Nat → HRes) : Int × List Binding × DState :=
  _dispatch_hook s beh "OnParsedMsgSupports"

def OnUserLogin (s : DState) (beh : Nat → HRes) : Int × List Binding × DState :=
  _dispatch_hook s beh "OnUserLogin"

def OnUserLogout (s : DState) (beh : Nat → HRes) : Int × List Binding × DState :=
  _dispatch_hook s beh "OnUserLogout"

def OnUserDisconnected (s : DState) (beh : Nat → HRes) : Int × List Binding × DState :=
  _dispatch_hook s beh "OnUserDisconnected"

def OnNewConn (s : DState) (beh : Nat → HRes) : Int × List Binding × DState :=
  _dispatch_hook s beh "OnNewConn"

def OnCloseConn (s : DState) (beh : Nat → HRes) : Int × List Binding × DState :=
  _dispatch_hook s beh "OnCloseConn"

def OnOperatorCommand (s : DState) (beh : Nat → HRes) : Int × List Binding × DState :=
  _dispatch_hook s beh "OnOperatorCommand"

def OnOperatorKicks (s : DState) (beh : Nat → HRes) : Int × List Binding × DState :=
  _dispatch_hook s beh "OnOperatorKicks"

def OnOperatorDrops (s : DState) (beh : Nat → HRes) : Int × List Binding × DState :=
  _dispatch_hook s beh "OnOperatorDrops"

def OnValidateTag (s : DState) (beh : Nat → HRes) : Int × List Binding × DState :=
  _dispatch_hook s beh "OnValidateTag"

def OnUserInList (s : DState) (beh : Nat → HRes) : Int × List Binding × DState :=
  _dispatch_hook s beh "OnUserInList"

def OnUnknownMsg (s : DState) (beh : Nat → HRes) : Int × List Binding × DState :=
  _dispatch_hook s beh "OnUnknownMsg"

def OnFlood (s : DState) (beh : Nat → HRes) : Int × List Binding × DState :=
  _dispatch_hook s beh "OnFlood"

/-! ### Administrative command handler -/

/-- Worker for `command.split()`: scan the characters, breaking on
whitespace runs and dropping empty pieces; `acc` holds the current token
reversed. -/
def pySplitChars : List Char → List Char → List String
  | [], acc => if acc.isEmpty then [] else [String.mk acc.reverse]
  | c :: cs, acc =>
    if c.isWhitespace then
      if acc.isEmpty then pySplitChars cs []
      else String.mk acc.reverse :: pySplitChars cs []
    else pySplitChars cs (c :: acc)

/-- `command.split()` — split on whitespace runs, dropping empty pieces. -/
def pySplitWs (s : String) : List String := pySplitChars s.data []

/-- `int(text)` as used on a command token (digits with an optional
sign; anything else raises `ValueError`, reported as `none`). -/
def pyInt (t : String) : Option Int := t.toInt?

/-- The permission-denied notice text. -/
def pmDenied : String := "Permission denied. Master class required."

/-- One line of the `!dispatcher list` output. -/
def listLine (sid : Nat) (info : Script) : String :=
  "  [" ++ (if info.enabled then "✓" else "✗") ++ "] ID=" ++ toString sid ++
    ": " ++ info.name ++ " (" ++ toString info.hooks.length ++
    " hooks, priority=" ++ toString info.priority ++ ")"

/-- The lines of the `!dispatcher stats` output (hook counters listed in
sorted key order, mirroring `sorted(stats['total_calls'].items())`). -/
def statsLines (st : StatsView) : List String :=
  ["Dispatcher Statistics:",
   "  Total scripts: " ++ toString st.total_scripts,
   "  Active scripts: " ++ toString st.active_scripts,
   "  Disabled scripts: " ++ toString st.disabled_scripts,
   "  Hook calls:"] ++
  (stableSortBy (fun a b => !(decide (b.1 < a.1))) st.total_calls).map
    (fun p => "    " ++ p.1 ++ ": " ++ toString p.2 ++ " calls (" ++
      toString ((alistGet st.failed_calls p.1).getD 0) ++ " failed)")

/-- The lines of the `!dispatcher help` output. -/
def helpLines : List String :=
  ["Dispatcher Commands:",
   "  !dispatcher list           - List all registered scripts",
   "  !dispatcher stats          - Show dispatcher statistics",
   "  !dispatcher enable <id>    - Enable a script",
   "  !dispatcher disable <id>   - Disable a script",
   "  !dispatcher help           - Show this help"]

/-- The `enable`/`disable <id>` subcommand bodies: parse the id token,
run the store operation, report.  `apply` is `enable_script` or
`disable_script`; `verb` is `"enabled"`/`"disabled"`. -/
def adminToggle (s : DState) (nick tok verb : String)
    (apply : DState → Nat → Bool × DState) : List (String × String) × DState :=
  match pyInt tok with
  | none => ([("Invalid script ID", nick)], s)
  | some i =>
    -- a negative id is never a dict key, so the store call returns False
    let r := if i < 0 then (false, s) else apply s i.toNat
    if r.1 then ([("Script ID " ++ toString i ++ " " ++ verb, nick)], r.2)
    else ([("Script ID " ++ toString i ++ " not found", nick)], r.2)

/-- The admin-command body of `OnHubCommand`, run on the post-dispatch
state when no script blocked the event: recognize the `dispatcher`
keyword, check the caller's class against the master threshold 10, then
run the `list`/`stats`/`enable`/`disable`/`help` subcommand.  Every
`vh.pm` is wrapped in `try/except: pass` in the source, so notices are
fire-and-forget; we record the attempted sends as `(text, nick)` pairs. -/
def adminHubCommand (s1 : DState) (nick command : String) (user_class : Int) :
    Int × List (String × String) × DState :=
  match pySplitWs command with
  | [] => (1, [], s1)
  | p0 :: rest =>
    if p0 != "dispatcher" then (1, [], s1)
    else if user_class < 10 then (0, [(pmDenied, nick)], s1)
    else
      match rest with
      | [] => (0, [("Usage: !dispatcher [list|stats|enable|disable|help]", nick)], s1)
      | sub :: rest2 =>
        let subcmd := sub.toLower
        if subcmd = "list" then
          let scripts := list_scripts s1
          (0, ("Registered Scripts (" ++ toString scripts.length ++ "):", nick) ::
            scripts.map (fun p => (listLine p.1 p.2, nick)), s1)
        else if subcmd = "stats" then
          (0, (statsLines (get_stats s1)).map (fun t => (t, nick)), s1)
        else if subcmd = "enable" ∧ rest2 ≠ [] then
          let r := adminToggle s1 nick (rest2.headD "") "enabled" enable_script
          (0, r.1, r.2)
        else if subcmd = "disable" ∧ rest2 ≠ [] then
          let r := adminToggle s1 nick (rest2.headD "") "disabled" disable_script
          (0, r.1, r.2)
        else if subcmd = "help" then
          (0, helpLines.map (fun t => (t, nick)), s1)
        else
          (0, [("Unknown subcommand: " ++ subcmd, nick)], s1)

/-- The effective `OnHubCommand` (the second definition in the source,
which shadows the plain dispatch-only one): first dispatch the event to
registered scripts, return 0 with no notice if one of them blocked it;
otherwise handle the `dispatcher` admin command on the post-dispatch
state.  The dispatch is pure, so referring to it twice equals the
source's single `result` assignment.  Returns `(result, sends, state)`. -/
def OnHubCommand (s : DState) (beh : Nat → HRes) (nick command : String)
    (user_class : Int) : Int × List (String × String) × DState :=
  if (_dispatch_hook s beh "OnHubCommand").1 = 0 then
    (0, [], (_dispatch_hook s beh "OnHubCommand").2.2)
  else
    adminHubCommand (_dispatch_hook s beh "OnHubCommand").2.2 nick command user_class

/-! ### Operation sequences (reachable states) -/

/-- One public registry operation, for quantifying over call sequences. -/
inductive Op where
  | reg (script_name : String) (hooks : List (String × Nat))
      (cleanup : Option Nat) (priority : Int) (auto_enable : Bool)
  | unreg (sid : Nat)
  | enable (sid : Nat)
  | disable (sid : Nat)
  deriving DecidableEq, Repr

/-- Apply one operation to the state (cleanup callables never raise here;
by `unregister_script`'s try/except the state is the same either way). -/
def applyOp (s : DState) : Op → DState
  | .reg n h c p a => (register_script s n h c p a).2
  | .unreg sid => (unregister_script s (fun _ => false) sid).2.2
  | .enable sid => (enable_script s sid).2
  | .disable sid => (disable_script s sid).2

/-- Run a sequence of registry operations. -/
def runOps (s : DState) (ops : List Op) : DState := ops.foldl applyOp s

/-- The ids handed out by the `register_script` calls of a sequence,
in call order. -/
def regIds (s : DState) : List Op → List Nat
  | [] => []
  | op :: rest =>
    match op with
    | .reg n h c p a => (register_script s n h c p a).1 :: regIds (applyOp s op) rest
    | _ => regIds (applyOp s op) rest

/-- Number of `register_script` calls in a sequence. -/
def countRegs : List Op → Nat
  | [] => 0
  | .reg _ _ _ _ _ :: rest => countRegs rest + 1
  | _ :: rest => countRegs rest

/-- A hook map as Python could pass it: a dict, so its keys are
pairwise distinct. -/
def wfOp : Op → Bool
  | .reg _ h _ _ _ => decide (h.map Prod.fst).Nodup
  | _ => true

/-- A sequence of calls as Python could issue them. -/
def WFOps (ops : List Op) : Prop := ∀ op ∈ ops, wfOp op = true

instance : DecidablePred WFOps := fun ops => by
  unfold WFOps
  infer_instance

/-! ### Derived notions used by the statements -/

/-- The binding list stored for a hook name (empty when absent). -/
def hookListAt (s : DState) (k : String) : List Binding :=
  (alistGet s.hooks k).getD []

/-- Invocation order demanded by the spec: strictly ascending priority,
ties broken by ascending script id (= registration order, since ids are
handed out monotonically). -/
def bindOrd (a b : Binding) : Prop :=
  a.pri < b.pri ∨ (a.pri = b.pri ∧ a.sid < b.sid)

/-- The prefix of a chain that actually runs: every binding up to and
including the first one whose outcome blocks. -/
def takeToBlock (beh : Nat → HRes) : List Binding → List Binding
  | [] => []
  | b :: rest =>
    if isBlockRes (beh b.handler) then [b] else b :: takeToBlock beh rest

/-- Overall chain result: 0 iff some binding's outcome blocks. -/
def chainResult (beh : Nat → HRes) (l : List Binding) : Int :=
  if l.any (fun b => isBlockRes (beh b.handler)) then 0 else 1

/-- Number of bindings in a list whose outcome raises. -/
def countRaises (beh : Nat → HRes) (l : List Binding) : Nat :=
  (l.filter (fun b => isRaise (beh b.handler))).length

/-- Attempted-call counter for one hook name. -/
def tc (s : DState) (k : String) : Nat := (alistGet s.total_calls k).getD 0

/-- Failed-call counter for one hook name. -/
def fc (s : DState) (k : String) : Nat := (alistGet s.failed_calls k).getD 0

/-- Number of registered scripts whose enabled flag is set. -/
def countEnabledScripts (s : DState) : Nat :=
  (s.scripts.filter (fun p => p.2.enabled)).length

/-- Number of registered scripts whose enabled flag is clear. -/
def countDisabledScripts (s : DState) : Nat :=
  (s.scripts.filter (fun p => !p.2.enabled)).length

/-- A state with the entry for one hook key dropped (used to state that
bindings under an unsupported key are invisible to every supported
dispatch). -/
def dropHookKey (h : String) (s : DState) : DState :=
  { s with hooks := s.hooks.filter (fun p => p.1 != h) }

/-! ### Association-list lemmas -/

theorem alistGet_set_self {κ α : Type} [DecidableEq κ] (l : List (κ × α)) (k : κ) (v : α) :
    alistGet (alistSet l k v) k = some v := by
  induction l with
  | nil => simp [alistGet, alistSet]
  | cons p rest ih =>
    by_cases h : p.1 = k
    · simp [alistGet, alistSet, h]
    · simp [alistGet, alistSet, h, ih]

theorem alistGet_set_ne {κ α : Type} [DecidableEq κ] (l : List (κ × α)) (k k' : κ) (v : α)
    (h : k' ≠ k) : alistGet (alistSet l k v) k' = alistGet l k' := by
  have hk : ¬ (k = k') := fun hh => h hh.symm
  induction l with
  | nil => simp [alistGet, alistSet, hk]
  | cons p rest ih =>
    by_cases hp : p.1 = k
    · subst hp
      simp [alistGet, alistSet, hk]
    · simp [alistGet, alistSet, hp, ih]

theorem alistGet_eq_none {κ α : Type} [DecidableEq κ] (l : List (κ × α)) (k : κ)
    (h : k ∉ l.map Prod.fst) : alistGet l k = none := by
  induction l with
  | nil => rfl
  | cons p rest ih =>
    simp only [List.map_cons, List.mem_cons] at h
    push_neg at h
    have h1 : ¬ (p.1 = k) := fun hh => h.1 hh.symm
    simp [alistGet, h1, ih h.2]

theorem alistSet_keys {κ α : Type} [DecidableEq κ] (l : List (κ × α)) (k : κ) (v : α) :
    (alistSet l k v).map Prod.fst = l.map Prod.fst ∨
      (alistSet l k v).map Prod.fst = l.map Prod.fst ++ [k] := by
  induction l with
  | nil => simp [alistSet]
  | cons p rest ih =>
    by_cases h : p.1 = k
    · left; simp [alistSet, h]
    · rcases ih with ih | ih
      · left; simp [alistSet, h, ih]
      · right; simp [alistSet, h, ih]

theorem nodupKeys_alistSet {κ α : Type} [DecidableEq κ] (l : List (κ × α)) (k : κ) (v : α)
    (h : (l.map Prod.fst).Nodup) : ((alistSet l k v).map Prod.fst).Nodup := by
  induction l with
  | nil => simp [alistSet]
  | cons p rest ih =>
    simp only [List.map_cons, List.nodup_cons] at h
    by_cases hp : p.1 = k
    · subst hp
      have hset : alistSet (p :: rest) p.1 v = (p.1, v) :: rest := by
        simp [alistSet]
      rw [hset, List.map_cons, List.nodup_cons]
      exact ⟨h.1, h.2⟩
    · have hrest := ih h.2
      rcases alistSet_keys rest k v with hk | hk
      · simp only [alistSet, if_neg hp, List.map_cons, List.nodup_cons, hk]
        exact ⟨h.1, h.2⟩
      · simp only [alistSet, if_neg hp, List.map_cons, List.nodup_cons, hk]
        refine ⟨?_, hk ▸ hrest⟩
        simp only [List.mem_append, List.mem_singleton]
        rintro (hm | rfl)
        · exact h.1 hm
        · exact hp rfl

theorem bumpCount_getD_self (l : List (String × Nat)) (k : String) :
    (alistGet (bumpCount l k) k).getD 0 = (alistGet l k).getD 0 + 1 := by
  simp [bumpCount, alistGet_set_self]

theorem bumpCount_get_ne (l : List (String × Nat)) (k k' : String) (h : k' ≠ k) :
    alistGet (bumpCount l k) k' = alistGet l k' := by
  simp [bumpCount, alistGet_set_ne _ _ _ _ h]

theorem bumpCountN_getD_self (l : List (String × Nat)) (k : String) (n : Nat) :
    (alistGet (bumpCountN l k n) k).getD 0 = (alistGet l k).getD 0 + n := by
  induction n generalizing l with
  | zero => simp [bumpCountN]
  | succ m ih =>
    simp only [bumpCountN]
    rw [ih, bumpCount_getD_self]
    omega

theorem bumpCountN_get_ne (l : List (String × Nat)) (k k' : String) (n : Nat) (h : k' ≠ k) :
    alistGet (bumpCountN l k n) k' = alistGet l k' := by
  induction n generalizing l with
  | zero => simp [bumpCountN]
  | succ m ih =>
    simp only [bumpCountN]
    rw [ih, bumpCount_get_ne _ _ _ h]

/-! ### Stable-sort lemmas -/

theorem mem_insertLe {α : Type} (le : α → α → Bool) (x a : α) (l : List α) :
    a ∈ insertLe le x l ↔ a = x ∨ a ∈ l := by
  induction l with
  | nil => simp [insertLe]
  | cons y ys ih =>
    by_cases h : le y x = true
    · simp only [insertLe, h, if_true, List.mem_cons, ih]
      tauto
    · rw [Bool.not_eq_true] at h
      simp only [insertLe, h, Bool.false_eq_true, if_false, List.mem_cons]

theorem insertLe_of_all {α : Type} (le : α → α → Bool) (x : α) (l : List α)
    (h : ∀ y ∈ l, le y x = true) : insertLe le x l = l ++ [x] := by
  induction l with
  | nil => rfl
  | cons y ys ih =>
    have hy : le y x = true := h y (List.mem_cons_self _ _)
    simp only [insertLe, hy, if_true, List.cons_append]
    rw [ih (fun z hz => h z (List.mem_cons_of_mem _ hz))]

theorem stableSortBy_append_one {α : Type} (le : α → α → Bool) (l : List α) (x : α) :
    stableSortBy le (l ++ [x]) = insertLe le x (stableSortBy le l) := by
  simp [stableSortBy, List.foldl_append]

theorem stableSortBy_eq_self {α : Type} (le : α → α → Bool) (l : List α)
    (h : l.Pairwise (fun a b => le a b = true)) : stableSortBy le l = l := by
  induction l using List.reverseRecOn with
  | nil => rfl
  | append_singleton ys y ih =>
    rw [stableSortBy_append_one]
    have h1 : ys.Pairwise (fun a b => le a b = true) :=
      h.sublist (List.sublist_append_left ys [y])
    have h2 : ∀ z ∈ ys, le z y = true := by
      intro z hz
      have hp := List.pairwise_append.mp h
      exact hp.2.2 z hz y (List.mem_singleton_self y)
    rw [ih h1, insertLe_of_all _ _ _ h2]

theorem bindOrd_priLe {a b : Binding} (h : bindOrd a b) : priLe a b = true := by
  rcases h with h | ⟨h, _⟩
  · simp only [priLe, decide_eq_true_eq]; omega
  · simp only [priLe, decide_eq_true_eq]; omega

theorem pairwise_insertLe (x : Binding) (l : List Binding)
    (hl : l.Pairwise bindOrd) (hsid : ∀ a ∈ l, a.sid < x.sid) :
    (insertLe priLe x l).Pairwise bindOrd := by
  induction l with
  | nil => simp [insertLe, List.pairwise_singleton]
  | cons y ys ih =>
    rw [List.pairwise_cons] at hl
    by_cases h : priLe y x = true
    · simp only [insertLe, h, if_true]
      rw [List.pairwise_cons]
      constructor
      · intro a ha
        rw [mem_insertLe] at ha
        rcases ha with rfl | ha
        · have hle : y.pri ≤ a.pri := by
            simpa [priLe, decide_eq_true_eq] using h
          rcases lt_or_eq_of_le hle with hlt | heq
          · exact Or.inl hlt
          · exact Or.inr ⟨heq, hsid y (List.mem_cons_self _ _)⟩
        · exact hl.1 a ha
      · exact ih hl.2 (fun a ha => hsid a (List.mem_cons_of_mem _ ha))
    · have hxy : x.pri < y.pri := by
        simp only [priLe, decide_eq_true_eq] at h
        omega
      rw [Bool.not_eq_true] at h
      simp only [insertLe, h, Bool.false_eq_true, if_false]
      rw [List.pairwise_cons]
      constructor
      · intro a ha
        rcases List.mem_cons.mp ha with rfl | ha
        · exact Or.inl hxy
        · have hya : y.pri ≤ a.pri := by
            have hb := bindOrd_priLe (hl.1 a ha)
            simpa [priLe, decide_eq_true_eq] using hb
          exact Or.inl (lt_of_lt_of_le hxy hya)
      · exact List.pairwise_cons.mpr hl

/-! ### Hook-table characterizations -/

theorem alistGet_hookAppendSort_self (hs : List (String × List Binding)) (k : String)
    (b : Binding) :
    alistGet (hookAppendSort hs k b) k =
      some (stableSortBy priLe ((alistGet hs k).getD [] ++ [b])) := by
  simp [hookAppendSort, alistGet_set_self]

theorem alistGet_hookAppendSort_ne (hs : List (String × List Binding)) (k k' : String)
    (b : Binding) (h : k' ≠ k) :
    alistGet (hookAppendSort hs k b) k' = alistGet hs k' := by
  simp [hookAppendSort, alistGet_set_ne _ _ _ _ h]

/-- Per-key effect of the registration loop: the key's list gains one
appended-and-stably-resorted binding when the hook map mentions the key,
and is untouched otherwise (hook-map keys are distinct). -/
theorem alistGet_registerHooks (sid : Nat) (pri : Int) (m : List (String × Nat))
    (hs : List (String × List Binding)) (k : String)
    (hnd : (m.map Prod.fst).Nodup) :
    alistGet (registerHooks sid pri m hs) k =
      match alistGet m k with
      | some h =>
        some (stableSortBy priLe ((alistGet hs k).getD [] ++ [⟨sid, pri, h⟩]))
      | none => alistGet hs k := by
  induction m generalizing hs with
  | nil => simp [registerHooks, alistGet]
  | cons p rest ih =>
    obtain ⟨k0, h0⟩ := p
    simp only [List.map_cons, List.nodup_cons] at hnd
    by_cases hk : k0 = k
    · subst hk
      have hrest : alistGet rest k0 = none := by
        apply alistGet_eq_none
        exact hnd.1
      simp only [registerHooks, alistGet, if_pos rfl]
      rw [ih _ hnd.2, hrest]
      simp [alistGet_hookAppendSort_self]
    · simp only [registerHooks, alistGet, if_neg hk]
      rw [ih _ hnd.2]
      have hne : k ≠ k0 := fun hh => hk hh.symm
      cases hget : alistGet rest k with
      | none => simp [alistGet_hookAppendSort_ne _ _ _ _ hne]
      | some h => simp [alistGet_hookAppendSort_ne _ _ _ _ hne]

theorem nodupKeys_hookAppendSort (hs : List (String × List Binding)) (k : String)
    (b : Binding) (h : (hs.map Prod.fst).Nodup) :
    ((hookAppendSort hs k b).map Prod.fst).Nodup :=
  nodupKeys_alistSet _ _ _ h

theorem nodupKeys_registerHooks (sid : Nat) (pri : Int) (m : List (String × Nat))
    (hs : List (String × List Binding)) (h : (hs.map Prod.fst).Nodup) :
    ((registerHooks sid pri m hs).map Prod.fst).Nodup := by
  induction m generalizing hs with
  | nil => exact h
  | cons p rest ih =>
    obtain ⟨k0, h0⟩ := p
    exact ih _ (nodupKeys_hookAppendSort _ _ _ h)

/-- Per-key effect of the unregistration loop when hook keys are
distinct: each list is filtered; a key whose list empties disappears
(and an absent key yields `[]` either way). -/
theorem hookListAt_removeHooksOf (sid : Nat) (hs : List (String × List Binding))
    (k : String) (hnd : (hs.map Prod.fst).Nodup) :
    ((alistGet (removeHooksOf sid hs) k).getD []) =
      ((alistGet hs k).getD []).filter (fun b => b.sid != sid) := by
  induction hs with
  | nil => simp [removeHooksOf, alistGet]
  | cons p rest ih =>
    obtain ⟨k0, l0⟩ := p
    simp only [List.map_cons, List.nodup_cons] at hnd
    have ihr := ih hnd.2
    by_cases hemp : (l0.filter (fun b => b.sid != sid)).isEmpty = true
    · have hstep : removeHooksOf sid ((k0, l0) :: rest) = removeHooksOf sid rest := by
        simp [removeHooksOf, hemp]
      rw [hstep]
      by_cases hk : k0 = k
      · subst hk
        have hnone : alistGet (removeHooksOf sid rest) k0 = none := by
          apply alistGet_eq_none
          intro hmem
          apply hnd.1
          have hsub : List.Sublist ((removeHooksOf sid rest).map Prod.fst)
              ((rest.map (fun p => (p.1, p.2.filter (fun b => b.sid != sid)))).map Prod.fst) :=
            List.Sublist.map _ (List.filter_sublist _)
          have hmap : (rest.map (fun p => (p.1, p.2.filter (fun b => b.sid != sid)))).map
              Prod.fst = rest.map Prod.fst := by
            simp [List.map_map]
          rw [hmap] at hsub
          exact hsub.mem hmem
        have hget1 : alistGet ((k0, l0) :: rest) k0 = some l0 := by simp [alistGet]
        rw [List.isEmpty_iff] at hemp
        rw [hnone, hget1]
        simp [hemp]
      · have hget : alistGet ((k0, l0) :: rest) k = alistGet rest k := by
          simp [alistGet, hk]
        rw [hget]
        exact ihr
    · rw [Bool.not_eq_true] at hemp
      have hstep : removeHooksOf sid ((k0, l0) :: rest) =
          (k0, l0.filter (fun b => b.sid != sid)) :: removeHooksOf sid rest := by
        simp [removeHooksOf, hemp]
      rw [hstep]
      by_cases hk : k0 = k
      · subst hk
        have hget1 : alistGet ((k0, l0) :: rest) k0 = some l0 := by simp [alistGet]
        rw [hget1]
        simp [alistGet]
      · have hget : alistGet ((k0, l0) :: rest) k = alistGet rest k := by
          simp [alistGet, hk]
        have hget2 : alistGet ((k0, l0.filter (fun b => b.sid != sid)) ::
            removeHooksOf sid rest) k = alistGet (removeHooksOf sid rest) k := by
          simp [alistGet, hk]
        rw [hget2, hget]
        exact ihr

theorem nodupKeys_removeHooksOf (sid : Nat) (hs : List (String × List Binding))
    (hnd : (hs.map Prod.fst).Nodup) :
    ((removeHooksOf sid hs).map Prod.fst).Nodup := by
  have hsub : List.Sublist ((removeHooksOf sid hs).map Prod.fst)
      ((hs.map (fun p => (p.1, p.2.filter (fun b => b.sid != sid)))).map Prod.fst) :=
    List.Sublist.map _ (List.filter_sublist _)
  have hmap : (hs.map (fun p => (p.1, p.2.filter (fun b => b.sid != sid)))).map Prod.fst
      = hs.map Prod.fst := by
    simp [List.map_map]
  rw [hmap] at hsub
  exact hnd.sublist hsub

/-! ### The hook-table invariant -/

/-- Invariant maintained by every public operation: hook keys are
distinct, every per-kind list is sorted by ascending priority with ties
in ascending script-id (registration) order, and every stored script id
is below the allocation counter. -/
structure StInv (s : DState) : Prop where
  nodupHooks : (s.hooks.map Prod.fst).Nodup
  ordered : ∀ k, (hookListAt s k).Pairwise bindOrd
  sidLt : ∀ k, ∀ b ∈ hookListAt s k, b.sid < s.next_script_id

theorem stInv_init : StInv initState := by
  refine ⟨by simp [initState], ?_, ?_⟩
  · intro k
    simp [hookListAt, initState, alistGet]
  · intro k b hb
    simp [hookListAt, initState, alistGet] at hb

theorem stInv_register (s : DState) (n : String) (m : List (String × Nat))
    (c : Option Nat) (p : Int) (a : Bool) (hs : StInv s)
    (hm : (m.map Prod.fst).Nodup) :
    StInv (register_script s n m c p a).2 := by
  have hget := fun k => alistGet_registerHooks s.next_script_id p m s.hooks k hm
  refine ⟨?_, ?_, ?_⟩
  · exact nodupKeys_registerHooks _ _ _ _ hs.nodupHooks
  · intro k
    have hO := hs.ordered k
    have hS := hs.sidLt k
    unfold hookListAt at hO hS
    show ((alistGet (registerHooks s.next_script_id p m s.hooks) k).getD []).Pairwise bindOrd
    rw [hget k]
    cases hmk : alistGet m k with
    | none =>
      exact hO
    | some h =>
      have hold : ((alistGet s.hooks k).getD []).Pairwise (fun x y => priLe x y = true) :=
        hO.imp bindOrd_priLe
      simp only [Option.getD_some]
      rw [stableSortBy_append_one, stableSortBy_eq_self _ _ hold]
      exact pairwise_insertLe _ _ hO (fun b hb => hS b hb)
  · intro k b hb
    have hO := hs.ordered k
    have hS := hs.sidLt k
    unfold hookListAt at hO hS hb
    show b.sid < s.next_script_id + 1
    rw [show (register_script s n m c p a).2.hooks =
        registerHooks s.next_script_id p m s.hooks from rfl] at hb
    rw [hget k] at hb
    cases hmk : alistGet m k with
    | none =>
      rw [hmk] at hb
      exact Nat.lt_succ_of_lt (hS b hb)
    | some h =>
      rw [hmk] at hb
      simp only [Option.getD_some] at hb
      have hold : ((alistGet s.hooks k).getD []).Pairwise (fun x y => priLe x y = true) :=
        hO.imp bindOrd_priLe
      rw [stableSortBy_append_one, stableSortBy_eq_self _ _ hold] at hb
      rw [mem_insertLe] at hb
      rcases hb with rfl | hb
      · exact Nat.lt_succ_self _
      · exact Nat.lt_succ_of_lt (hS b hb)

theorem unregister_fields (s : DState) (cbeh : Nat → Bool) (sid : Nat) :
    ((unregister_script s cbeh sid).2.2.hooks = s.hooks ∨
      (unregister_script s cbeh sid).2.2.hooks = removeHooksOf sid s.hooks) ∧
    (unregister_script s cbeh sid).2.2.next_script_id = s.next_script_id := by
  unfold unregister_script
  cases alistGet s.scripts sid with
  | none => exact ⟨Or.inl rfl, rfl⟩
  | some sc => exact ⟨Or.inr rfl, rfl⟩

theorem stInv_unregister (s : DState) (cbeh : Nat → Bool) (sid : Nat) (hs : StInv s) :
    StInv (unregister_script s cbeh sid).2.2 := by
  obtain ⟨hh, hn⟩ := unregister_fields s cbeh sid
  rcases hh with hh | hh
  · refine ⟨?_, ?_, ?_⟩
    · rw [hh]; exact hs.nodupHooks
    · intro k
      unfold hookListAt
      rw [hh]
      exact hs.ordered k
    · intro k b hb
      unfold hookListAt at hb
      rw [hh] at hb
      rw [hn]
      exact hs.sidLt k b hb
  · refine ⟨?_, ?_, ?_⟩
    · rw [hh]; exact nodupKeys_removeHooksOf _ _ hs.nodupHooks
    · intro k
      unfold hookListAt
      rw [hh, hookListAt_removeHooksOf _ _ _ hs.nodupHooks]
      exact (hs.ordered k).sublist (List.filter_sublist _)
    · intro k b hb
      unfold hookListAt at hb
      rw [hh, hookListAt_removeHooksOf _ _ _ hs.nodupHooks] at hb
      rw [hn]
      exact hs.sidLt k b ((List.filter_sublist _).mem hb)

theorem enable_fields (s : DState) (sid : Nat) :
    (enable_script s sid).2.hooks = s.hooks ∧
    (enable_script s sid).2.next_script_id = s.next_script_id := by
  unfold enable_script
  cases alistGet s.scripts sid with
  | none => exact ⟨rfl, rfl⟩
  | some sc => exact ⟨rfl, rfl⟩

theorem disable_fields (s : DState) (sid : Nat) :
    (disable_script s sid).2.hooks = s.hooks ∧
    (disable_script s sid).2.next_script_id = s.next_script_id := by
  unfold disable_script
  cases alistGet s.scripts sid with
  | none => exact ⟨rfl, rfl⟩
  | some sc => exact ⟨rfl, rfl⟩

theorem stInv_of_same_fields (s s' : DState) (hs : StInv s)
    (hh : s'.hooks = s.hooks) (hn : s'.next_script_id = s.next_script_id) : StInv s' := by
  refine ⟨?_, ?_, ?_⟩
  · rw [hh]; exact hs.nodupHooks
  · intro k
    unfold hookListAt
    rw [hh]
    exact hs.ordered k
  · intro k b hb
    unfold hookListAt at hb
    rw [hh] at hb
    rw [hn]
    exact hs.sidLt k b hb

theorem stInv_applyOp (s : DState) (op : Op) (hs : StInv s) (hw : wfOp op = true) :
    StInv (applyOp s op) := by
  cases op with
  | reg n m c p a =>
    simp only [wfOp, decide_eq_true_eq] at hw
    exact stInv_register s n m c p a hs hw
  | unreg sid => exact stInv_unregister s _ sid hs
  | enable sid =>
    exact stInv_of_same_fields s _ hs (enable_fields s sid).1 (enable_fields s sid).2
  | disable sid =>
    exact stInv_of_same_fields s _ hs (disable_fields s sid).1 (disable_fields s sid).2

theorem stInv_runOps (s : DState) (ops : List Op) (hs : StInv s)
    (hw : ∀ op ∈ ops, wfOp op = true) : StInv (runOps s ops) := by
  induction ops generalizing s with
  | nil => exact hs
  | cons op rest ih =>
    exact ih (applyOp s op) (stInv_applyOp s op hs (hw op (List.mem_cons_self _ _)))
      (fun o ho => hw o (List.mem_cons_of_mem _ ho))

/-! ### Dispatch characterization -/

theorem takeToBlock_cons_block (beh : Nat → HRes) (b : Binding) (l : List Binding)
    (h : isBlockRes (beh b.handler) = true) : takeToBlock beh (b :: l) = [b] := by
  simp [takeToBlock, h]

theorem takeToBlock_cons_nonblock (beh : Nat → HRes) (b : Binding) (l : List Binding)
    (h : isBlockRes (beh b.handler) = false) :
    takeToBlock beh (b :: l) = b :: takeToBlock beh l := by
  simp [takeToBlock, h]

theorem chainResult_cons_block (beh : Nat → HRes) (b : Binding) (l : List Binding)
    (h : isBlockRes (beh b.handler) = true) : chainResult beh (b :: l) = 0 := by
  simp [chainResult, h]

theorem chainResult_cons_nonblock (beh : Nat → HRes) (b : Binding) (l : List Binding)
    (h : isBlockRes (beh b.handler) = false) :
    chainResult beh (b :: l) = chainResult beh l := by
  simp [chainResult, h]

theorem countRaises_cons_raise (beh : Nat → HRes) (b : Binding) (l : List Binding)
    (h : isRaise (beh b.handler) = true) :
    countRaises beh (b :: l) = countRaises beh l + 1 := by
  simp [countRaises, List.filter_cons, h, Nat.add_comm]

theorem countRaises_cons_ret (beh : Nat → HRes) (b : Binding) (l : List Binding)
    (h : isRaise (beh b.handler) = false) :
    countRaises beh (b :: l) = countRaises beh l := by
  simp [countRaises, List.filter_cons, h]

theorem isRaise_ret (beh : Nat → HRes) (b : Binding) (v : PyVal)
    (h : beh b.handler = HRes.ret v) : isRaise (beh b.handler) = false := by
  rw [h]; rfl

/-- What one run of the handler loop computes, as a function of the
snapshot filtered by the live enabled check: the overall result is 0 iff
some surviving handler blocks, exactly the prefix up to the first
blocker is invoked, and the failed counter is bumped once per raising
invoked handler. -/
theorem dispatchLoop_spec (beh : Nat → HRes) (k : String) (l : List Binding) (s : DState) :
    dispatchLoop beh k l s =
      (chainResult beh (l.filter (enabledIn s)),
       takeToBlock beh (l.filter (enabledIn s)),
       { s with failed_calls := bumpCountN s.failed_calls k (countRaises beh (takeToBlock beh (l.filter (enabledIn s)))) }) := by
  induction l generalizing s with
  | nil =>
    simp [dispatchLoop, chainResult, takeToBlock, countRaises, bumpCountN]
  | cons b rest ih =>
    cases hsc : alistGet s.scripts b.sid with
    | none =>
      have hskip : dispatchLoop beh k (b :: rest) s = dispatchLoop beh k rest s := by
        simp [dispatchLoop, hsc]
      have hfil : (b :: rest).filter (enabledIn s) = rest.filter (enabledIn s) := by
        simp [List.filter_cons, enabledIn, hsc]
      rw [hskip, hfil, ih]
    | some sc =>
      by_cases hen : sc.enabled = true
      · have hfil : (b :: rest).filter (enabledIn s) = b :: rest.filter (enabledIn s) := by
          simp [List.filter_cons, enabledIn, hsc, hen]
        cases hbe : beh b.handler with
        | ret v =>
          by_cases hbl : blockCond v = true
          · have hloop : dispatchLoop beh k (b :: rest) s = (0, [b], s) := by
              simp [dispatchLoop, hsc, hen, hbe, hbl]
            have hblk : isBlockRes (beh b.handler) = true := by
              rw [hbe]; simpa [isBlockRes] using hbl
            rw [hloop, hfil, chainResult_cons_block _ _ _ hblk,
              takeToBlock_cons_block _ _ _ hblk]
            have h3 : countRaises beh [b] = 0 := by
              simp [countRaises, List.filter_cons, isRaise_ret beh b v hbe]
            rw [h3]
            simp [bumpCountN]
          · rw [Bool.not_eq_true] at hbl
            have hloop : dispatchLoop beh k (b :: rest) s =
                ((dispatchLoop beh k rest s).1, b :: (dispatchLoop beh k rest s).2.1,
                 (dispatchLoop beh k rest s).2.2) := by
              simp [dispatchLoop, hsc, hen, hbe, hbl]
            have hblk : isBlockRes (beh b.handler) = false := by
              rw [hbe]; simpa [isBlockRes] using hbl
            rw [hloop, ih, hfil, chainResult_cons_nonblock _ _ _ hblk,
              takeToBlock_cons_nonblock _ _ _ hblk,
              countRaises_cons_ret _ _ _ (isRaise_ret beh b v hbe)]
        | raise =>
          have hblk : isBlockRes (beh b.handler) = false := by
            rw [hbe]; rfl
          have hrai : isRaise (beh b.handler) = true := by
            rw [hbe]; rfl
          have hloop : dispatchLoop beh k (b :: rest) s =
              ((dispatchLoop beh k rest
                  { s with failed_calls := bumpCount s.failed_calls k }).1,
               b :: (dispatchLoop beh k rest
                  { s with failed_calls := bumpCount s.failed_calls k }).2.1,
               (dispatchLoop beh k rest
                  { s with failed_calls := bumpCount s.failed_calls k }).2.2) := by
            simp [dispatchLoop, hsc, hen, hbe]
          have ihs : dispatchLoop beh k rest
              { s with failed_calls := bumpCount s.failed_calls k } =
              (chainResult beh (rest.filter (enabledIn s)),
               takeToBlock beh (rest.filter (enabledIn s)),
               { s with failed_calls := bumpCountN (bumpCount s.failed_calls k) k (countRaises beh (takeToBlock beh (rest.filter (enabledIn s)))) }) :=
            ih { s with failed_calls := bumpCount s.failed_calls k }
          rw [hloop, ihs, hfil, chainResult_cons_nonblock _ _ _ hblk,
            takeToBlock_cons_nonblock _ _ _ hblk, countRaises_cons_raise _ _ _ hrai]
          rfl
      · have hskip : dispatchLoop beh k (b :: rest) s = dispatchLoop beh k rest s := by
          simp [dispatchLoop, hsc, hen]
        have hfil : (b :: rest).filter (enabledIn s) = rest.filter (enabledIn s) := by
          rw [Bool.not_eq_true] at hen
          simp [List.filter_cons, enabledIn, hsc, hen]
        rw [hskip, hfil, ih]

/-- `_dispatch_hook` in full: attempted counter bumped exactly once,
then the loop characterization over the snapshot of the hook list
filtered by the live enabled check. -/
theorem dispatch_hook_spec (s : DState) (beh : Nat → HRes) (k : String) :
    _dispatch_hook s beh k =
      (chainResult beh ((hookListAt s k).filter (enabledIn s)),
       takeToBlock beh ((hookListAt s k).filter (enabledIn s)),
       { s with
         total_calls := bumpCount s.total_calls k,
         failed_calls := bumpCountN s.failed_calls k (countRaises beh (takeToBlock beh ((hookListAt s k).filter (enabledIn s)))) }) := by
  unfold _dispatch_hook
  by_cases hemp : ((alistGet s.hooks k).getD []).isEmpty = true
  · rw [List.isEmpty_iff] at hemp
    have h1 : hookListAt s k = [] := hemp
    simp only [h1, hemp, List.isEmpty_nil, if_true, List.filter_nil, chainResult,
      takeToBlock, countRaises, List.any_nil, List.filter_nil, List.length_nil,
      Bool.false_eq_true, if_false, bumpCountN]
  · rw [Bool.not_eq_true] at hemp
    simp only [hemp, Bool.false_eq_true, if_false]
    have := dispatchLoop_spec beh k ((alistGet s.hooks k).getD [])
      { s with total_calls := bumpCount s.total_calls k }
    rw [this]
    rfl

/-! ### Helper lemmas for the claim statements -/

theorem takeToBlock_eq_of_no_block (beh : Nat → HRes) (l : List Binding)
    (h : ∀ c ∈ l, isBlockRes (beh c.handler) = false) : takeToBlock beh l = l := by
  induction l with
  | nil => rfl
  | cons b rest ih =>
    rw [takeToBlock_cons_nonblock _ _ _ (h b (List.mem_cons_self _ _))]
    rw [ih (fun c hc => h c (List.mem_cons_of_mem _ hc))]

theorem chainResult_eq_one_of_no_block (beh : Nat → HRes) (l : List Binding)
    (h : ∀ c ∈ l, isBlockRes (beh c.handler) = false) : chainResult beh l = 1 := by
  unfold chainResult
  rw [if_neg]
  simp only [List.any_eq_true, not_exists]
  intro c hc
  rw [h c hc.1] at hc
  exact absurd hc.2 (by simp)

theorem takeToBlock_append_block (beh : Nat → HRes) (pre post : List Binding) (b : Binding)
    (hpre : ∀ c ∈ pre, isBlockRes (beh c.handler) = false)
    (hb : isBlockRes (beh b.handler) = true) :
    takeToBlock beh (pre ++ b :: post) = pre ++ [b] := by
  induction pre with
  | nil => simp [takeToBlock_cons_block _ _ _ hb]
  | cons c cs ih =>
    rw [List.cons_append, takeToBlock_cons_nonblock _ _ _ (hpre c (List.mem_cons_self _ _)),
      ih (fun d hd => hpre d (List.mem_cons_of_mem _ hd)), List.cons_append]

theorem chainResult_append_block (beh : Nat → HRes) (pre post : List Binding) (b : Binding)
    (hb : isBlockRes (beh b.handler) = true) :
    chainResult beh (pre ++ b :: post) = 0 := by
  unfold chainResult
  rw [if_pos]
  simp only [List.any_eq_true]
  exact ⟨b, by simp, hb⟩

theorem countRaises_eq_zero (beh : Nat → HRes) (l : List Binding)
    (h : ∀ c ∈ l, isRaise (beh c.handler) = false) : countRaises beh l = 0 := by
  unfold countRaises
  rw [List.filter_eq_nil_iff.mpr]
  · rfl
  · intro c hc
    rw [h c hc]
    simp

theorem mem_takeToBlock (beh : Nat → HRes) (l : List Binding) (b : Binding)
    (hb : b ∈ takeToBlock beh l) : b ∈ l := by
  induction l with
  | nil => exact absurd hb (List.not_mem_nil b)
  | cons c cs ih =>
    by_cases hc : isBlockRes (beh c.handler) = true
    · rw [takeToBlock_cons_block _ _ _ hc] at hb
      rcases List.mem_singleton.mp hb with rfl
      exact List.mem_cons_self _ _
    · rw [Bool.not_eq_true] at hc
      rw [takeToBlock_cons_nonblock _ _ _ hc] at hb
      rcases List.mem_cons.mp hb with rfl | hb
      · exact List.mem_cons_self _ _
      · exact List.mem_cons_of_mem _ (ih hb)

theorem alistGet_mem {κ α : Type} [DecidableEq κ] (l : List (κ × α)) (k : κ) (v : α)
    (h : alistGet l k = some v) : (k, v) ∈ l := by
  induction l with
  | nil => exact absurd h (by simp [alistGet])
  | cons p rest ih =>
    by_cases hp : p.1 = k
    · rw [show alistGet (p :: rest) k = some p.2 from by simp [alistGet, hp]] at h
      rw [Option.some_inj] at h
      subst h
      rw [← hp]
      exact List.mem_cons_self _ _
    · rw [show alistGet (p :: rest) k = alistGet rest k from by simp [alistGet, hp]] at h
      exact List.mem_cons_of_mem _ (ih h)

/-- Every binding surviving `removeHooksOf sid` belongs to another
script: each stored list is a filtered list. -/
theorem mem_removeHooksOf_ne (sid : Nat) (hs : List (String × List Binding)) (k : String)
    (b : Binding) (hb : b ∈ (alistGet (removeHooksOf sid hs) k).getD []) : b.sid ≠ sid := by
  cases hget : alistGet (removeHooksOf sid hs) k with
  | none => rw [hget] at hb; exact absurd hb (List.not_mem_nil b)
  | some v =>
    rw [hget] at hb
    simp only [Option.getD_some] at hb
    have hmem := alistGet_mem _ _ _ hget
    unfold removeHooksOf at hmem
    have hmem2 := List.mem_of_mem_filter hmem
    rw [List.mem_map] at hmem2
    obtain ⟨p, _, hp⟩ := hmem2
    rw [Prod.mk.injEq] at hp
    rw [← hp.2] at hb
    have hpred := List.of_mem_filter hb
    simpa using hpred

theorem mem_stableSortBy {α : Type} (le : α → α → Bool) (l : List α) (a : α) :
    a ∈ stableSortBy le l ↔ a ∈ l := by
  induction l using List.reverseRecOn with
  | nil => simp [stableSortBy]
  | append_singleton ys y ih =>
    rw [stableSortBy_append_one, mem_insertLe]
    simp only [List.mem_append, List.mem_singleton, ih]
    tauto

theorem alistGet_filter_key_ne {α : Type} (l : List (String × α)) (h k : String)
    (hne : k ≠ h) : alistGet (l.filter (fun p => p.1 != h)) k = alistGet l k := by
  induction l with
  | nil => rfl
  | cons p rest ih =>
    by_cases hp : p.1 = h
    · have hdrop : (p :: rest).filter (fun p => p.1 != h) =
          rest.filter (fun p => p.1 != h) := by
        simp [List.filter_cons, hp]
      have hget : alistGet (p :: rest) k = alistGet rest k := by
        have : ¬ (p.1 = k) := by rw [hp]; exact fun hh => hne hh.symm
        simp [alistGet, this]
      rw [hdrop, hget, ih]
    · have hkeep : (p :: rest).filter (fun p => p.1 != h) =
          p :: rest.filter (fun p => p.1 != h) := by
        simp [List.filter_cons, hp]
      rw [hkeep]
      by_cases hpk : p.1 = k
      · simp [alistGet, hpk]
      · simp [alistGet, hpk, ih]

/-! ### Claim C1 -/

/-- C1: after any reachable sequence of registrations (and other public
operations), every per-kind binding list is sorted in ascending priority
with equal priorities in registration (script-id) order, and every
dispatch invokes exactly the live-enabled handlers of that list, in list
order, up to and including the first blocker. -/
theorem c1_priority_order_and_dispatch (ops : List Op) (hw : WFOps ops) (k : String)
    (beh : Nat → HRes) :
    (hookListAt (runOps initState ops) k).Pairwise bindOrd ∧
    (_dispatch_hook (runOps initState ops) beh k).2.1 =
      takeToBlock beh ((hookListAt (runOps initState ops) k).filter
        (enabledIn (runOps initState ops))) := by
  have hinv := stInv_runOps initState ops stInv_init hw
  refine ⟨hinv.ordered k, ?_⟩
  rw [dispatch_hook_spec]

def c1ops : List Op :=
  [Op.reg "A" [("OnTimer", 1)] none 100 true, Op.reg "B" [("OnTimer", 2)] none 10 true]

/-- C1 witness: two registrations with priorities 100 then 10; the
binding list is resorted and dispatch follows it. -/
theorem c1_priority_order_and_dispatch_witness :
    (hookListAt (runOps initState c1ops) "OnTimer").Pairwise bindOrd ∧
    (_dispatch_hook (runOps initState c1ops) (fun _ => HRes.ret (PyVal.vint 1))
        "OnTimer").2.1 =
      takeToBlock (fun _ => HRes.ret (PyVal.vint 1))
        ((hookListAt (runOps initState c1ops) "OnTimer").filter
          (enabledIn (runOps initState c1ops))) :=
  c1_priority_order_and_dispatch c1ops (by decide) "OnTimer" (fun _ => HRes.ret (PyVal.vint 1))

/-! ### Claim C2 -/

/-- C2: when the surviving enabled chain is `pre ++ b :: post`, the
handlers of `pre` return non-blocking values and `b` returns the Block
sentinel `0`, dispatch stops at `b`: nothing in `post` is invoked, the
call returns 0, the attempted counter gains exactly 1 and the failed
counter is unchanged. -/
theorem c2_block_short_circuit (s : DState) (beh : Nat → HRes) (k : String)
    (pre post : List Binding) (b : Binding)
    (hfil : (hookListAt s k).filter (enabledIn s) = pre ++ b :: post)
    (hlen : 2 ≤ (pre ++ b :: post).length)
    (hpre : ∀ c ∈ pre, ∃ v, beh c.handler = HRes.ret v ∧ blockCond v = false)
    (hb : beh b.handler = HRes.ret (PyVal.vint 0)) :
    (_dispatch_hook s beh k).1 = 0 ∧
    (_dispatch_hook s beh k).2.1 = pre ++ [b] ∧
    tc (_dispatch_hook s beh k).2.2 k = tc s k + 1 ∧
    fc (_dispatch_hook s beh k).2.2 k = fc s k := by
  have hpreB : ∀ c ∈ pre, isBlockRes (beh c.handler) = false := by
    intro c hc
    obtain ⟨v, hv, hbl⟩ := hpre c hc
    rw [hv]
    simpa [isBlockRes] using hbl
  have hbB : isBlockRes (beh b.handler) = true := by
    rw [hb]
    rfl
  have hraise : ∀ c ∈ pre ++ [b], isRaise (beh c.handler) = false := by
    intro c hc
    rcases List.mem_append.mp hc with hc | hc
    · obtain ⟨v, hv, _⟩ := hpre c hc
      rw [hv]; rfl
    · rcases List.mem_singleton.mp hc with rfl
      rw [hb]; rfl
  rw [dispatch_hook_spec, hfil]
  rw [takeToBlock_append_block _ _ _ _ hpreB hbB, chainResult_append_block _ _ _ _ hbB]
  refine ⟨rfl, rfl, ?_, ?_⟩
  · unfold tc
    simp [bumpCount_getD_self]
  · unfold fc
    rw [countRaises_eq_zero _ _ hraise]
    simp [bumpCountN]

def c2state : DState :=
  runOps initState
    [Op.reg "A" [("OnTimer", 1)] none 10 true, Op.reg "B" [("OnTimer", 2)] none 100 true]

def c2beh : Nat → HRes := fun h => if h = 1 then HRes.ret (PyVal.vint 0) else HRes.ret (PyVal.vint 1)

/-- C2 witness: handler at priority 10 blocks; the one at priority 100
is never invoked; attempted gains 1, failed stays. -/
theorem c2_block_short_circuit_witness :
    (_dispatch_hook c2state c2beh "OnTimer").1 = 0 ∧
    (_dispatch_hook c2state c2beh "OnTimer").2.1 = [] ++ [Binding.mk 1 10 1] ∧
    tc (_dispatch_hook c2state c2beh "OnTimer").2.2 "OnTimer" = tc c2state "OnTimer" + 1 ∧
    fc (_dispatch_hook c2state c2beh "OnTimer").2.2 "OnTimer" = fc c2state "OnTimer" :=
  c2_block_short_circuit c2state c2beh "OnTimer" [] [Binding.mk 2 100 2] (Binding.mk 1 10 1)
    (by decide) (by decide) (fun c hc => absurd hc (List.not_mem_nil c)) (by decide)

/-! ### Claim C3 -/

/-- C3: when no surviving handler blocks and at least one raises, every
handler of the chain is still invoked, the call returns Allow (1), the
failed counter gains exactly one per raising handler, and attempted
gains 1. -/
theorem c3_raise_isolation (s : DState) (beh : Nat → HRes) (k : String)
    (hnb : ∀ c ∈ (hookListAt s k).filter (enabledIn s), isBlockRes (beh c.handler) = false)
    (hex : ∃ c ∈ (hookListAt s k).filter (enabledIn s), beh c.handler = HRes.raise) :
    (_dispatch_hook s beh k).2.1 = (hookListAt s k).filter (enabledIn s) ∧
    (_dispatch_hook s beh k).1 = 1 ∧
    fc (_dispatch_hook s beh k).2.2 k =
      fc s k + countRaises beh ((hookListAt s k).filter (enabledIn s)) ∧
    tc (_dispatch_hook s beh k).2.2 k = tc s k + 1 := by
  rw [dispatch_hook_spec]
  rw [takeToBlock_eq_of_no_block _ _ hnb, chainResult_eq_one_of_no_block _ _ hnb]
  refine ⟨rfl, rfl, ?_, ?_⟩
  · unfold fc
    simp [bumpCountN_getD_self]
  · unfold tc
    simp [bumpCount_getD_self]

def c3state : DState :=
  runOps initState
    [Op.reg "A" [("OnTimer", 1)] none 10 true, Op.reg "B" [("OnTimer", 2)] none 100 true]

def c3beh : Nat → HRes := fun h => if h = 1 then HRes.raise else HRes.ret (PyVal.vint 1)

/-- C3 witness: the priority-10 handler raises, the priority-100 handler
allows: both run, failed becomes 1, attempted 1, result Allow. -/
theorem c3_raise_isolation_witness :
    (_dispatch_hook c3state c3beh "OnTimer").2.1 =
      (hookListAt c3state "OnTimer").filter (enabledIn c3state) ∧
    (_dispatch_hook c3state c3beh "OnTimer").1 = 1 ∧
    fc (_dispatch_hook c3state c3beh "OnTimer").2.2 "OnTimer" =
      fc c3state "OnTimer" + countRaises c3beh
        ((hookListAt c3state "OnTimer").filter (enabledIn c3state)) ∧
    tc (_dispatch_hook c3state c3beh "OnTimer").2.2 "OnTimer" = tc c3state "OnTimer" + 1 :=
  c3_raise_isolation c3state c3beh "OnTimer" (by decide) (by decide)

/-! ### Claim C4 -/

/-- C4: every dispatch bumps the attempted counter exactly once; with no
bound handlers it returns Allow and changes nothing else; a binding whose
owner is missing or disabled is never invoked, and the failed counter
moves only with the actually invoked handlers. -/
theorem c4_attempted_once_and_skips (s : DState) (beh : Nat → HRes) (k : String) :
    tc (_dispatch_hook s beh k).2.2 k = tc s k + 1 ∧
    (hookListAt s k = [] →
      _dispatch_hook s beh k =
        (1, [], { s with total_calls := bumpCount s.total_calls k })) ∧
    (∀ b, enabledIn s b = false → b ∉ (_dispatch_hook s beh k).2.1) ∧
    fc (_dispatch_hook s beh k).2.2 k =
      fc s k + countRaises beh (_dispatch_hook s beh k).2.1 := by
  refine ⟨?_, ?_, ?_, ?_⟩
  · rw [dispatch_hook_spec]
    unfold tc
    simp [bumpCount_getD_self]
  · intro hemp
    rw [dispatch_hook_spec, hemp]
    simp [chainResult, takeToBlock, countRaises, bumpCountN]
  · intro b hb hbmem
    rw [dispatch_hook_spec] at hbmem
    have hmem := mem_takeToBlock _ _ _ hbmem
    have := List.of_mem_filter hmem
    rw [hb] at this
    exact absurd this (by simp)
  · rw [dispatch_hook_spec]
    unfold fc
    simp [bumpCountN_getD_self]

def c4beh : Nat → HRes := fun _ => HRes.ret (PyVal.vint 1)

/-- C4 witness: dispatch on the empty registry bumps only the attempted
counter and returns Allow; an absent-owner binding is never in the
invoked trace. -/
theorem c4_attempted_once_and_skips_witness :
    tc (_dispatch_hook initState c4beh "OnTimer").2.2 "OnTimer" =
      tc initState "OnTimer" + 1 ∧
    _dispatch_hook initState c4beh "OnTimer" =
      (1, [], { initState with total_calls := bumpCount initState.total_calls "OnTimer" }) ∧
    (Binding.mk 5 100 1) ∉ (_dispatch_hook initState c4beh "OnTimer").2.1 := by
  have h := c4_attempted_once_and_skips initState c4beh "OnTimer"
  exact ⟨h.1, h.2.1 (by decide), h.2.2.1 (Binding.mk 5 100 1) (by decide)⟩

/-! ### Claim C9 -/

/-- C9: a handler's return value short-circuits the chain exactly when
`isinstance(ret, int) and ret == 0`; the boolean `False` blocks, while
`0.0`, `"0"` and `None` are treated as Allow and iteration continues. -/
theorem c9_block_sentinel_typing (s : DState) (beh : Nat → HRes) (k : String)
    (b : Binding) (rest : List Binding) (v : PyVal)
    (hfil : (hookListAt s k).filter (enabledIn s) = b :: rest)
    (hb : beh b.handler = HRes.ret v) :
    (blockCond v = true →
      (_dispatch_hook s beh k).1 = 0 ∧ (_dispatch_hook s beh k).2.1 = [b]) ∧
    (blockCond v = false →
      (_dispatch_hook s beh k).2.1 = b :: takeToBlock beh rest ∧
      (_dispatch_hook s beh k).1 = chainResult beh rest) ∧
    (∀ w, blockCond w = (pyIsInstInt w && pyEqZero w)) ∧
    blockCond (PyVal.vbool false) = true ∧
    blockCond (PyVal.vbool true) = false ∧
    blockCond (PyVal.vfloat 0) = false ∧
    blockCond (PyVal.vstr "0") = false ∧
    blockCond PyVal.vnone = false := by
  refine ⟨?_, ?_, fun w => rfl, rfl, rfl, rfl, rfl, rfl⟩
  · intro hbl
    have hbB : isBlockRes (beh b.handler) = true := by
      rw [hb]
      simpa [isBlockRes] using hbl
    rw [dispatch_hook_spec, hfil, takeToBlock_cons_block _ _ _ hbB,
      chainResult_cons_block _ _ _ hbB]
    exact ⟨rfl, rfl⟩
  · intro hbl
    have hbB : isBlockRes (beh b.handler) = false := by
      rw [hb]
      simpa [isBlockRes] using hbl
    rw [dispatch_hook_spec, hfil, takeToBlock_cons_nonblock _ _ _ hbB,
      chainResult_cons_nonblock _ _ _ hbB]
    exact ⟨rfl, rfl⟩

def c9state : DState := runOps initState [Op.reg "A" [("OnTimer", 1)] none 100 true]

def c9beh : Nat → HRes := fun _ => HRes.ret (PyVal.vbool false)

/-- C9 witness: a handler returning Python `False` blocks the chain
(bool being an int subclass equal to 0). -/
theorem c9_block_sentinel_typing_witness :
    blockCond (PyVal.vbool false) = true ∧
    (_dispatch_hook c9state c9beh "OnTimer").1 = 0 ∧
    (_dispatch_hook c9state c9beh "OnTimer").2.1 = [Binding.mk 1 100 1] := by
  have h := c9_block_sentinel_typing c9state c9beh "OnTimer" (Binding.mk 1 100 1) []
    (PyVal.vbool false) (by decide) (by decide)
  have hb := h.1 rfl
  exact ⟨rfl, hb.1, hb.2⟩

/-! ### Claim C5 -/

def c5ops : List Op := [Op.reg "A" [] none 100 true, Op.enable 1]

def c5ops2 : List Op := [Op.reg "B" [] none 100 false]

def c5ops3 : List Op := [Op.reg "C" [] none 100 true, Op.disable 1, Op.unreg 1]

/-- C5 fails on the code: enabling an already-enabled id increments the
active counter again (register + enable → reported active 2, one enabled
script); registering with auto_enable=False leaves the disabled set
empty (reported disabled 0, one disabled script); unregistering a
disabled id still decrements active (reported active -1 with an empty
registry). -/
theorem c5_stats_counters_diverge :
    ((get_stats (runOps initState c5ops)).active_scripts = 2 ∧
      countEnabledScripts (runOps initState c5ops) = 1) ∧
    ((get_stats (runOps initState c5ops2)).disabled_scripts = 0 ∧
      countDisabledScripts (runOps initState c5ops2) = 1) ∧
    ((get_stats (runOps initState c5ops3)).active_scripts = -1 ∧
      countEnabledScripts (runOps initState c5ops3) = 0) :=
  ⟨⟨rfl, rfl⟩, ⟨rfl, rfl⟩, ⟨rfl, rfl⟩⟩

/-! ### Claim C6 -/

theorem unregister_of_get_none (s : DState) (cbeh : Nat → Bool) (sid : Nat)
    (h : alistGet s.scripts sid = none) : unregister_script s cbeh sid = (false, [], s) := by
  unfold unregister_script
  rw [h]

theorem unregister_of_get_some (s : DState) (cbeh : Nat → Bool) (sid : Nat) (sc : Script)
    (h : alistGet s.scripts sid = some sc) :
    unregister_script s cbeh sid =
      (true,
       (match sc.cleanup with
        | some c => if cbeh c then [c] else [c]
        | none => []),
       { s with
         scripts := s.scripts.filter (fun p => p.1 != sid)
         hooks := removeHooksOf sid s.hooks
         active_scripts := s.active_scripts - 1
         disabled_scripts := s.disabled_scripts.filter (fun x => x != sid) }) := by
  unfold unregister_script
  rw [h]

/-- C6: unregistering an unknown id returns false and leaves the state
untouched (the call is total, so it never raises); on a known id the
cleanup callable is invoked exactly once, a raising cleanup changes
nothing about the outcome, the registration leaves the store, every
binding it owned leaves every event-kind list, and a second call on the
same id returns false. -/
theorem c6_unregister_cleanup_idempotent (s : DState) (cbeh cbeh' : Nat → Bool) (sid : Nat) :
    (alistGet s.scripts sid = none → unregister_script s cbeh sid = (false, [], s)) ∧
    (∀ sc, alistGet s.scripts sid = some sc →
      (unregister_script s cbeh sid).1 = true ∧
      (unregister_script s cbeh sid).2.1 = sc.cleanup.toList ∧
      unregister_script s cbeh sid = unregister_script s cbeh' sid ∧
      alistGet (unregister_script s cbeh sid).2.2.scripts sid = none ∧
      (∀ k b, b ∈ hookListAt (unregister_script s cbeh sid).2.2 k → b.sid ≠ sid) ∧
      (unregister_script (unregister_script s cbeh sid).2.2 cbeh sid).1 = false) := by
  constructor
  · intro hnone
    exact unregister_of_get_none s cbeh sid hnone
  · intro sc hsome
    have hval := unregister_of_get_some s cbeh sid sc hsome
    have hval' := unregister_of_get_some s cbeh' sid sc hsome
    have hfilter : ∀ (l : List (Nat × Script)),
        alistGet (l.filter (fun p => p.1 != sid)) sid = none := by
      intro l
      apply alistGet_eq_none
      intro hmem
      rw [List.mem_map] at hmem
      obtain ⟨p, hp, hpe⟩ := hmem
      have hpred := List.of_mem_filter hp
      rw [hpe] at hpred
      simp at hpred
    have hcalls : (match sc.cleanup with
        | some c => if cbeh c then [c] else [c]
        | none => ([] : List Nat)) = sc.cleanup.toList := by
      cases sc.cleanup with
      | none => rfl
      | some c => cases hcb : cbeh c <;> simp
    have hcalls' : (match sc.cleanup with
        | some c => if cbeh' c then [c] else [c]
        | none => ([] : List Nat)) = sc.cleanup.toList := by
      cases sc.cleanup with
      | none => rfl
      | some c => cases hcb : cbeh' c <;> simp
    have hnone2 : alistGet (unregister_script s cbeh sid).2.2.scripts sid = none := by
      rw [hval]
      exact hfilter s.scripts
    refine ⟨?_, ?_, ?_, hnone2, ?_, ?_⟩
    · rw [hval]
    · rw [hval]
      exact hcalls
    · rw [hval, hval', hcalls, hcalls']
    · intro k b hb
      unfold hookListAt at hb
      rw [hval] at hb
      exact mem_removeHooksOf_ne sid s.hooks k b hb
    · rw [unregister_of_get_none _ cbeh sid hnone2]

def c6state : DState :=
  runOps initState [Op.reg "A" [("OnTimer", 1), ("OnUserLogin", 2)] (some 9) 100 true]

def c6sc : Script :=
  { name := "A", hooks := [("OnTimer", 1), ("OnUserLogin", 2)], cleanup := some 9,
    priority := 100, enabled := true }

/-- C6 witness: unregistering a registered script with a cleanup
callable invokes it once, strips its bindings, and a repeat call (as
well as a call on an unknown id) returns false. -/
theorem c6_unregister_cleanup_idempotent_witness :
    unregister_script initState (fun _ => false) 42 = (false, [], initState) ∧
    (unregister_script c6state (fun _ => false) 1).1 = true ∧
    (unregister_script c6state (fun _ => false) 1).2.1 = c6sc.cleanup.toList ∧
    unregister_script c6state (fun _ => false) 1 =
      unregister_script c6state (fun _ => true) 1 ∧
    alistGet (unregister_script c6state (fun _ => false) 1).2.2.scripts 1 = none ∧
    (unregister_script (unregister_script c6state (fun _ => false) 1).2.2
      (fun _ => false) 1).1 = false := by
  have h0 := c6_unregister_cleanup_idempotent initState (fun _ => false) (fun _ => false) 42
  have h := c6_unregister_cleanup_idempotent c6state (fun _ => false) (fun _ => true) 1
  have h2 := h.2 c6sc (by decide)
  exact ⟨h0.1 (by decide), h2.1, h2.2.1, h2.2.2.1, h2.2.2.2.1, h2.2.2.2.2.2⟩

/-! ### Claim C8 -/

theorem applyOp_next_total (s : DState) (op : Op) :
    s.next_script_id ≤ (applyOp s op).next_script_id ∧
    (applyOp s op).total_scripts =
      (match op with
       | .reg _ _ _ _ _ => s.total_scripts + 1
       | _ => s.total_scripts) := by
  cases op with
  | reg n m c p a => exact ⟨Nat.le_succ _, rfl⟩
  | unreg sid =>
    constructor
    · rw [show applyOp s (Op.unreg sid) =
          (unregister_script s (fun _ => false) sid).2.2 from rfl]
      rw [(unregister_fields s (fun _ => false) sid).2]
    · show (unregister_script s (fun _ => false) sid).2.2.total_scripts = s.total_scripts
      unfold unregister_script
      cases alistGet s.scripts sid with
      | none => rfl
      | some sc => rfl
  | enable sid =>
    constructor
    · rw [show applyOp s (Op.enable sid) = (enable_script s sid).2 from rfl]
      rw [(enable_fields s sid).2]
    · show (enable_script s sid).2.total_scripts = s.total_scripts
      unfold enable_script
      cases alistGet s.scripts sid with
      | none => rfl
      | some sc => rfl
  | disable sid =>
    constructor
    · rw [show applyOp s (Op.disable sid) = (disable_script s sid).2 from rfl]
      rw [(disable_fields s sid).2]
    · show (disable_script s sid).2.total_scripts = s.total_scripts
      unfold disable_script
      cases alistGet s.scripts sid with
      | none => rfl
      | some sc => rfl

theorem regIds_mono (ops : List Op) (s : DState) :
    (∀ i ∈ regIds s ops, s.next_script_id ≤ i) ∧
    (regIds s ops).Pairwise (fun a b => a < b) ∧
    (runOps s ops).total_scripts = s.total_scripts + countRegs ops := by
  induction ops generalizing s with
  | nil => exact ⟨fun i hi => absurd hi (List.not_mem_nil i), List.Pairwise.nil, rfl⟩
  | cons op rest ih =>
    obtain ⟨hnx, htot⟩ := applyOp_next_total s op
    obtain ⟨ih1, ih2, ih3⟩ := ih (applyOp s op)
    have hrun : runOps s (op :: rest) = runOps (applyOp s op) rest := rfl
    cases op with
    | reg n m c p a =>
      have hrid : regIds s (Op.reg n m c p a :: rest) =
          s.next_script_id :: regIds (applyOp s (Op.reg n m c p a)) rest := rfl
      have hnx' : (applyOp s (Op.reg n m c p a)).next_script_id = s.next_script_id + 1 := rfl
      refine ⟨?_, ?_, ?_⟩
      · intro i hi
        rw [hrid] at hi
        rcases List.mem_cons.mp hi with rfl | hi
        · exact Nat.le_refl _
        · have := ih1 i hi
          rw [hnx'] at this
          omega
      · rw [hrid]
        rw [List.pairwise_cons]
        refine ⟨?_, ih2⟩
        intro i hi
        have := ih1 i hi
        rw [hnx'] at this
        omega
      · rw [hrun, ih3, htot]
        show s.total_scripts + 1 + countRegs rest = s.total_scripts + (countRegs rest + 1)
        omega
    | unreg sid =>
      refine ⟨?_, ih2, ?_⟩
      · intro i hi
        exact Nat.le_trans hnx (ih1 i hi)
      · rw [hrun, ih3, htot]
        rfl
    | enable sid =>
      refine ⟨?_, ih2, ?_⟩
      · intro i hi
        exact Nat.le_trans hnx (ih1 i hi)
      · rw [hrun, ih3, htot]
        rfl
    | disable sid =>
      refine ⟨?_, ih2, ?_⟩
      · intro i hi
        exact Nat.le_trans hnx (ih1 i hi)
      · rw [hrun, ih3, htot]
        rfl

/-- C8: over any sequence of public registry operations, the ids handed
out by the `register_script` calls are strictly increasing in call order
(so each is greater than every earlier one and none is ever reused, even
across unregistrations), and the `total_scripts` counter equals the
number of `register_script` calls made. -/
theorem c8_ids_monotone_unique (ops : List Op) :
    (regIds initState ops).Pairwise (fun a b => a < b) ∧
    (runOps initState ops).total_scripts = countRegs ops := by
  obtain ⟨_, h2, h3⟩ := regIds_mono ops initState
  refine ⟨h2, ?_⟩
  rw [h3]
  simp [initState]

/-! ### Claim C7 -/

def c7state : DState :=
  (register_script initState "Blocker" [("OnHubCommand", 7)] none 100 true).2

def c7beh : Nat → HRes := fun _ => HRes.ret (PyVal.vint 0)

/-- C7 counterexample: with a registered script whose OnHubCommand
handler blocks, a `dispatcher list` command from privilege 0 (below the
master threshold 10) returns 0 but sends no notice at all — the
permission-denied notice the claim promises is never produced, because
the handler dispatches the command event to scripts before the
privilege check. -/
theorem c7_counterexample :
    (0 : Int) < 10 ∧
    pySplitWs "dispatcher list" = ["dispatcher", "list"] ∧
    (OnHubCommand c7state c7beh "user" "dispatcher list" 0).2.1 = [] ∧
    (OnHubCommand c7state c7beh "user" "dispatcher list" 0).1 = 0 := by
  refine ⟨by decide, by decide, rfl, rfl⟩

/-- C7 amended: for every administrative `dispatcher` command whose
caller class is below the master threshold 10, **provided no registered
script blocks the command event that is dispatched first**, the handler
sends exactly the one permission-denied notice, sends no listing or
statistics content, and returns 0 regardless of the subcommand. -/
theorem c7_permission_denied_below_threshold (s : DState) (beh : Nat → HRes)
    (nick command : String) (user_class : Int) (rest : List String)
    (hnb : (_dispatch_hook s beh "OnHubCommand").1 ≠ 0)
    (hsplit : pySplitWs command = "dispatcher" :: rest)
    (hclass : user_class < 10) :
    OnHubCommand s beh nick command user_class =
      (0, [(pmDenied, nick)], (_dispatch_hook s beh "OnHubCommand").2.2) := by
  unfold OnHubCommand
  rw [if_neg hnb]
  unfold adminHubCommand
  rw [hsplit]
  simp [hclass]

/-- C7 witness for the amended statement: empty registry (nothing
blocks), command `dispatcher list`, privilege 0. -/
theorem c7_permission_denied_below_threshold_witness :
    OnHubCommand initState c7beh "user" "dispatcher list" 0 =
      (0, [(pmDenied, "user")],
        (_dispatch_hook initState c7beh "OnHubCommand").2.2) :=
  c7_permission_denied_below_threshold initState c7beh "user" "dispatcher list" 0 ["list"]
    (by decide) (by decide) (by decide)

/-! ### Claim C10 -/

theorem dropHookKey_hookListAt (h k : String) (s : DState) (hne : k ≠ h) :
    hookListAt (dropHookKey h s) k = hookListAt s k := by
  unfold hookListAt dropHookKey
  rw [alistGet_filter_key_ne _ _ _ hne]

/-- Dispatching a kind reads only that kind's list: dropping any other
key's entry changes neither result, trace, nor counters. -/
theorem dispatch_ignores_other_keys (s : DState) (h k : String) (beh : Nat → HRes)
    (hne : k ≠ h) :
    (_dispatch_hook s beh k).1 = (_dispatch_hook (dropHookKey h s) beh k).1 ∧
    (_dispatch_hook s beh k).2.1 = (_dispatch_hook (dropHookKey h s) beh k).2.1 ∧
    (_dispatch_hook s beh k).2.2.total_calls =
      (_dispatch_hook (dropHookKey h s) beh k).2.2.total_calls ∧
    (_dispatch_hook s beh k).2.2.failed_calls =
      (_dispatch_hook (dropHookKey h s) beh k).2.2.failed_calls := by
  have hl := dropHookKey_hookListAt h k s hne
  rw [dispatch_hook_spec, dispatch_hook_spec, hl]
  exact ⟨rfl, rfl, rfl, rfl⟩

/-- C10: `register_script` does not validate hook-map keys.  A map
containing a key `h` outside the supported event-kind set still
registers: the fresh id is returned, total/active counters include the
registration, and a binding is stored under `h` — but dispatching any
supported kind behaves exactly as if the `h` entry did not exist, so
those bindings are never invoked by the fixed dispatch entry points. -/
theorem c10_unknown_hook_key_inert (s : DState) (n : String) (m : List (String × Nat))
    (c : Option Nat) (p : Int) (a : Bool) (h : String) (f : Nat)
    (hnd : (m.map Prod.fst).Nodup) (hmem : alistGet m h = some f)
    (hns : h ∉ supportedHookNames) :
    (register_script s n m c p a).1 = s.next_script_id ∧
    (register_script s n m c p a).2.total_scripts = s.total_scripts + 1 ∧
    (register_script s n m c p a).2.active_scripts =
      (if a then s.active_scripts + 1 else s.active_scripts) ∧
    (Binding.mk s.next_script_id p f) ∈ hookListAt (register_script s n m c p a).2 h ∧
    (∀ k, k ∈ supportedHookNames → ∀ beh,
      (_dispatch_hook (register_script s n m c p a).2 beh k).1 =
        (_dispatch_hook (dropHookKey h (register_script s n m c p a).2) beh k).1 ∧
      (_dispatch_hook (register_script s n m c p a).2 beh k).2.1 =
        (_dispatch_hook (dropHookKey h (register_script s n m c p a).2) beh k).2.1 ∧
      (_dispatch_hook (register_script s n m c p a).2 beh k).2.2.total_calls =
        (_dispatch_hook (dropHookKey h (register_script s n m c p a).2) beh k).2.2.total_calls ∧
      (_dispatch_hook (register_script s n m c p a).2 beh k).2.2.failed_calls =
        (_dispatch_hook (dropHookKey h (register_script s n m c p a).2) beh k).2.2.failed_calls) := by
  refine ⟨rfl, rfl, rfl, ?_, ?_⟩
  · unfold hookListAt
    rw [show (register_script s n m c p a).2.hooks =
        registerHooks s.next_script_id p m s.hooks from rfl]
    rw [alistGet_registerHooks _ _ _ _ _ hnd, hmem]
    simp only [Option.getD_some]
    rw [mem_stableSortBy]
    simp
  · intro k hk beh
    have hne : k ≠ h := fun he => hns (he ▸ hk)
    exact dispatch_ignores_other_keys _ h k beh hne

def c10beh : Nat → HRes := fun _ => HRes.ret (PyVal.vint 1)

def c10state : DState :=
  (register_script initState "X" [("Bogus", 3), ("OnTimer", 4)] none 100 true).2

/-- C10 witness: a registration with the unsupported key `Bogus` gets id
1 and counters, stores a binding under `Bogus`, and the timer dispatch is
unchanged by dropping the `Bogus` entry. -/
theorem c10_unknown_hook_key_inert_witness :
    (register_script initState "X" [("Bogus", 3), ("OnTimer", 4)] none 100 true).1 = 1 ∧
    Binding.mk 1 100 3 ∈ hookListAt c10state "Bogus" ∧
    (_dispatch_hook c10state c10beh "OnTimer").2.1 =
      (_dispatch_hook (dropHookKey "Bogus" c10state) c10beh "OnTimer").2.1 := by
  have h := c10_unknown_hook_key_inert initState "X" [("Bogus", 3), ("OnTimer", 4)]
    none 100 true "Bogus" 3 (by decide) (by decide) (by decide)
  exact ⟨h.1, h.2.2.2.1, (h.2.2.2.2 "OnTimer" (by decide) c10beh).2.1⟩
